import Mathlib

/-!
Shallow embedding of the novel-crawler program (`src/main.py`, `src/_config.py`)
and proofs about its crawl-and-extract loop.

Strings are modelled as lists of characters (`Str`).  Python library
functions used by the program (`str.strip`, `str.lower`, `str.replace`,
`re.sub` with the two concrete patterns, `unidecode`, `random.randrange`,
`urllib.parse.urljoin`) are embedded as executable Lean functions on `Str`,
each faithful to the library semantics on the character set the program
manipulates.  The filesystem touched by `write_content` / `append_content`
is an explicit association list from paths to file contents; exceptions are
`Except` values; the `while url is not None` loop of `main` is a fuelled
step function.
-/

namespace NovelCrawler

/-- Python strings, modelled as lists of characters. -/
abbrev Str := List Char

/-- Coerce a Lean string literal to the `Str` model. -/
def str (s : String) : Str := s.data

/-- `os.linesep` on the POSIX platform the program runs on. -/
def lineSep : Str := ['\n']

/-- The whitespace characters of Python's `str.strip` / regex `\s`
restricted to the ASCII range the program manipulates. -/
def isPySpace (c : Char) : Bool :=
  c == ' ' || c == '\t' || c == '\n' || c == '\r' || c == '\x0b' || c == '\x0c'

/-- Python regex word characters (`\w`) on ASCII input: alphanumerics and
underscore.  The input of the substitution in `main` is `unidecode` output,
hence ASCII. -/
def isPyWordChar (c : Char) : Bool :=
  c.isAlpha || c.isDigit || c == '_'

/-- Python `str.strip()`: drop leading and trailing whitespace. -/
def pyStrip (l : Str) : Str :=
  ((l.dropWhile isPySpace).reverse.dropWhile isPySpace).reverse

/-- Python `str.lower()`, character-wise (no special multi-character
casings occur in the program's inputs). -/
def pyLower (l : Str) : Str := l.map Char.toLower

/-- `l` starts with the pattern `pre` (Python `str.startswith`). -/
def strStartsWith : Str → Str → Bool
  | _, [] => true
  | [], _ :: _ => false
  | c :: cs, p :: ps => c == p && strStartsWith cs ps

/-- Python substring test `needle in hay`. -/
def strContains : Str → Str → Bool
  | [], needle => needle.isEmpty
  | c :: rest, needle => strStartsWith (c :: rest) needle || strContains rest needle

/-- Fragment of the `unidecode` transliteration table: identity on ASCII
(as the library is), base-letter folding for the accented letters exercised
in this development, and the library's empty default elsewhere. -/
def unidecodeChar (c : Char) : Str :=
  if c.val < 128 then [c]
  else if c == 'é' then ['e']
  else if c == 'É' then ['E']
  else if c == 'á' then ['a']
  else if c == 'à' then ['a']
  else if c == 'ü' then ['u']
  else []

/-- `unidecode(s)`: transliterate character by character. -/
def unidecodeStr (l : Str) : Str :=
  (l.map unidecodeChar).flatten

/-- Python `s.replace("\\" + target, repl)` for a two-character pattern
backslash-`target` replaced by the single character `repl`, scanning left
to right without overlap (models lines 210 of `main.py`). -/
def pyReplaceEscape (target repl : Char) : Str → Str
  | [] => []
  | [c] => [c]
  | c1 :: c2 :: rest =>
    if c1 == '\\' && c2 == target then repl :: pyReplaceEscape target repl rest
    else c1 :: pyReplaceEscape target repl (c2 :: rest)

/-- `re.sub("\\s+|\\W", "_", ·)`: a maximal whitespace run becomes one
underscore (the `\s+` branch is tried first), every other non-word
character becomes one underscore, word characters are kept.  The flag
records whether the scanner is inside a whitespace run. -/
def subWsNonWordGo (inWs : Bool) : Str → Str
  | [] => []
  | c :: rest =>
    if isPySpace c then
      if inWs then subWsNonWordGo true rest
      else '_' :: subWsNonWordGo true rest
    else if isPyWordChar c then c :: subWsNonWordGo false rest
    else '_' :: subWsNonWordGo false rest

/-- First substitution of the filename derivation (line 197 of `main.py`). -/
def subWsNonWord (l : Str) : Str := subWsNonWordGo false l

/-- `re.sub("_+", "_", ·)`: a maximal run of underscores becomes a single
underscore.  The flag records whether the previous character of the run
was an underscore already emitted. -/
def collapseGo (prevUnderscore : Bool) : Str → Str
  | [] => []
  | c :: rest =>
    if c == '_' then
      if prevUnderscore then collapseGo true rest
      else '_' :: collapseGo true rest
    else c :: collapseGo false rest

/-- Second substitution of the filename derivation (line 198 of `main.py`). -/
def collapseUnderscores (l : Str) : Str := collapseGo false l

/-- The filename slug computed in `main` (lines 194–198):
`re.sub("_+", "_", re.sub("\\s+|\\W", "_", unidecode(title)))`. -/
def deriveFilename (title : Str) : Str :=
  collapseUnderscores (subWsNonWord (unidecodeStr title))

/-- No two consecutive underscores occur in the list. -/
def noDoubleUnderscore : Str → Bool
  | [] => true
  | [_] => true
  | c1 :: c2 :: rest => !(c1 == '_' && c2 == '_') && noDoubleUnderscore (c2 :: rest)

/-- The accumulation loop of `main` (lines 205–208):
`utf8_content = ""` then `utf8_content += paragraph_text + os.linesep`
for each content node (nodes are modelled by their flattened text). -/
def buildUtf8Content (contents : List Str) : Str :=
  contents.foldl (fun acc p => acc ++ p ++ lineSep) []

/-- The content normalization of `main` (lines 205–213): concatenate the
node texts with a line separator after each, replace literal `\n` and `\r`
escape sequences, transliterate to ASCII, strip. -/
def normalize (contents : List Str) : Str :=
  pyStrip (unidecodeStr (pyReplaceEscape 'r' '\r' (pyReplaceEscape 'n' '\n'
    (buildUtf8Content contents))))

/-- Modelled from the spec (§4.3): the four normalization steps written as
an explicit composition over the whole text — concatenation of each node's
text with one line separator appended after each node, escape restoration,
transliteration, trim — to be compared with `normalize` above. -/
def specNormalize (contents : List Str) : Str :=
  pyStrip (unidecodeStr (pyReplaceEscape 'r' '\r' (pyReplaceEscape 'n' '\n'
    (List.flatten (contents.map (fun node => node ++ lineSep))))))

/-- The heading decision of `main` (lines 216–219), computed on the raw
first content node: `content_firstline.startswith("chapter") or
title.lower() in content_firstline` where
`content_firstline = contents[0].text_content().lower().strip()`. -/
def headingDecision (title first : Str) : Bool :=
  let content_firstline := pyStrip (pyLower first)
  strStartsWith content_firstline (str "chapter") ||
    strContains content_firstline (pyLower title)

/-- The final chapter text written by `main` (lines 205–222) for a page
whose content nodes are `first :: rest`: the normalized content, prefixed
either with `"## "` alone (heading already present) or with
`"## " + title + os.linesep` (title injected, note: the raw title). -/
def reconcileContent (title first : Str) (rest : List Str) : Str :=
  let ascii_content := normalize (first :: rest)
  if headingDecision title first then str "## " ++ ascii_content
  else str "## " ++ title ++ lineSep ++ ascii_content

/-- Split a string at the first occurrence of `"://"`, returning the parts
before and after it. -/
def splitOnSchemeSep : Str → Option (Str × Str)
  | [] => none
  | c :: rest =>
    if strStartsWith (c :: rest) (str "://") then some ([], rest.drop 2)
    else
      match splitOnSchemeSep rest with
      | some (pre, post) => some (c :: pre, post)
      | none => none

/-- `urllib.parse.urljoin(base, ref)` on the reference shapes the program
produces: a reference carrying a scheme is returned as is, a
network-path reference (`//…`) takes the base's scheme, an absolute-path
reference (`/…`) takes the base's scheme and authority, and a bare
relative reference replaces the last path segment of the base (no
dot-segment handling; the crawl loop only ever joins references that pass
its `/`-or-base-url guard). -/
def urljoin (base ref : Str) : Str :=
  if strContains ref (str "://") then ref
  else if strStartsWith ref (str "//") then
    match splitOnSchemeSep base with
    | some (scheme, _) => scheme ++ str ":" ++ ref
    | none => ref
  else if strStartsWith ref (str "/") then
    match splitOnSchemeSep base with
    | some (scheme, rest) =>
        scheme ++ str "://" ++ rest.takeWhile (fun c => c != '/') ++ ref
    | none => ref
  else (base.reverse.dropWhile (fun c => c != '/')).reverse ++ ref

/-- Outcome of next-link resolution: an absolute next URL, or chain
termination. -/
inductive LinkResult where
  | next (url : Str)
  | terminal
deriving DecidableEq

/-- Next-link handling of `main` (lines 232–250): no match terminates the
chain; otherwise the first match is stripped and, if it starts with `/` or
with the configured base URL, joined against the base URL; any other match
also terminates the chain. -/
def resolveNext (found : List Str) (baseurl : Str) : LinkResult :=
  match found with
  | [] => .terminal
  | m :: _ =>
    let relative_nexturl := pyStrip m
    if strStartsWith relative_nexturl (str "/") ||
        strStartsWith relative_nexturl baseurl then
      .next (urljoin baseurl relative_nexturl)
    else .terminal

/-- `random.randrange(lo, hi)`: `none` models the `ValueError` raised on an
empty range; otherwise the draw is uniform over `[lo, hi)`, modelled by a
seed `u` mapped to `lo + u % (hi - lo)`. -/
def randrangeDraw (lo hi : Int) (u : Nat) : Option Int :=
  if lo < hi then some (lo + (u : Int) % (hi - lo)) else none

/-- `delay(average_ms)` of `main.py` (lines 108–120), reduced to the drawn
millisecond duration: `deviation_ms = math.floor(average_ms / 2)` (exact
floor division on the integer inputs in range), then
`randrange(average_ms - deviation_ms, average_ms + deviation_ms)`. -/
def delayDraw (average_ms : Int) (u : Nat) : Option Int :=
  let deviation_ms := average_ms.fdiv 2
  randrangeDraw (average_ms - deviation_ms) (average_ms + deviation_ms) u

/-- The filesystem as an association list from paths to file contents. -/
abbrev FS := List (Str × Str)

/-- Look up a path in the filesystem. -/
def fsLookup : FS → Str → Option Str
  | [], _ => none
  | (p, v) :: rest, q => if p = q then some v else fsLookup rest q

/-- The fatal errors of a loop iteration: `IndexError` from an empty
title/content selector result, `FileExistsError` from `write_content`,
`ValueError` from `random.randrange` on an empty range. -/
inductive CrawlError where
  | extractionError
  | outputCollision (path : Str)
  | delayEmptyRange
deriving DecidableEq

/-- `write_content(path, content)` (lines 68–87 of `main.py`): raises
`FileExistsError` if the path already exists, leaving the filesystem
untouched; otherwise creates the file. -/
def write_content (fs : FS) (pathstr content : Str) : Except CrawlError FS :=
  if (fsLookup fs pathstr).isSome then .error (.outputCollision pathstr)
  else .ok (fs ++ [(pathstr, content)])

/-- `append_content(path, content)` (lines 90–105 of `main.py`): append to
the file, creating it if absent. -/
def fsAppend : FS → Str → Str → FS
  | [], p, v => [(p, v)]
  | (q, w) :: rest, p, v =>
    if q = p then (q, w ++ v) :: rest else (q, w) :: fsAppend rest p v

/-- The per-run configuration read in `main` (lines 127–150). -/
structure SiteConfig where
  baseurl : Str
  basedir : Str
  serieId : Str
  combineFlag : Bool
  delayMs : Int
deriving DecidableEq

/-- One fetched page, abstracted to the results of the three xpath
queries; content and next-link nodes are modelled by their flattened
text. -/
structure Page where
  titleMatches : List Str
  contentMatches : List Str
  nextMatches : List Str
deriving DecidableEq

/-- The per-chapter output path `f"{basedir}/{serie_id}/{filename}.txt"`. -/
def derivedPath (cfg : SiteConfig) (title : Str) : Str :=
  cfg.basedir ++ str "/" ++ cfg.serieId ++ str "/" ++ deriveFilename title ++ str ".txt"

/-- The combined-archive path `f"{basedir}/{serie_id}/{serie_id}.txt"`. -/
def combinedPath (cfg : SiteConfig) : Str :=
  cfg.basedir ++ str "/" ++ cfg.serieId ++ str "/" ++ cfg.serieId ++ str ".txt"

/-- Result of one loop iteration: continue with the next URL, or the
normal end of the chain (the `SystemExit("End of chapters reached")`
raised on a missing or invalid next link, which `main` treats as the
designed termination signal, logged at INFO — distinct from the error
exceptions). -/
inductive StepOutcome where
  | continued (nextUrl : Str)
  | finished
deriving DecidableEq

/-- One iteration of the `while url is not None` loop of `main`
(lines 163–250), from a successfully fetched and parsed page: title
extraction, filename derivation, normalization, heading reconciliation,
write (and optional combined append), next-link resolution, delay.  The
returned filesystem reflects what was on disk when the iteration ended,
also on the error path. -/
def step (cfg : SiteConfig) (fs : FS) (page : Page) (u : Nat) :
    Except CrawlError StepOutcome × FS :=
  match page.titleMatches with
  | [] => (.error .extractionError, fs)
  | title :: _ =>
    match page.contentMatches with
    | [] => (.error .extractionError, fs)
    | first :: rest =>
      let final := reconcileContent title first rest
      match write_content fs (derivedPath cfg title) final with
      | .error e => (.error e, fs)
      | .ok fs1 =>
        let fs2 := if cfg.combineFlag then
            fsAppend fs1 (combinedPath cfg) (final ++ lineSep)
          else fs1
        match resolveNext page.nextMatches cfg.baseurl with
        | .terminal => (.ok .finished, fs2)
        | .next nextUrl =>
          match delayDraw cfg.delayMs u with
          | none => (.error .delayEmptyRange, fs2)
          | some _ => (.ok (.continued nextUrl), fs2)

instance {ε α : Type} [DecidableEq ε] [DecidableEq α] : DecidableEq (Except ε α) := fun x y =>
  match x, y with
  | .error a, .error b =>
    if h : a = b then .isTrue (by rw [h])
    else .isFalse (fun hh => h (by injection hh))
  | .ok a, .ok b =>
    if h : a = b then .isTrue (by rw [h])
    else .isFalse (fun hh => h (by injection hh))
  | .error _, .ok _ => .isFalse (fun hh => Except.noConfusion hh)
  | .ok _, .error _ => .isFalse (fun hh => Except.noConfusion hh)

/-- Outcome of a whole run: the normal end of the chain, an abort on an
uncaught error, or still running when the fuel bound is reached (the real
loop is unbounded). -/
inductive RunResult where
  | normalEnd (fs : FS)
  | failed (e : CrawlError) (fs : FS)
  | running (url : Str) (fs : FS)
deriving DecidableEq

/-- The fuelled crawl loop: `site` maps a URL to the page fetched from it,
`rand` supplies the randomness seed of iteration `i`. -/
def crawl (cfg : SiteConfig) (site : Str → Page) (rand : Nat → Nat) :
    Nat → Str → FS → Nat → RunResult
  | 0, url, fs, _ => .running url fs
  | fuel + 1, url, fs, i =>
    match step cfg fs (site url) (rand i) with
    | (.error e, fs') => .failed e fs'
    | (.ok .finished, fs') => .normalEnd fs'
    | (.ok (.continued nextUrl), fs') => crawl cfg site rand fuel nextUrl fs' (i + 1)

/-- A concrete configuration used in the concrete evaluations below:
base URL `https://example.com/novel/`, output under `out/s`, combine flag
off, 100 ms average delay. -/
def exampleConfig : SiteConfig :=
  ⟨str "https://example.com/novel/", str "out", str "s", false, 100⟩

/-- A concrete page with title `T`, one content node `body`, and no
next-link match. -/
def examplePageTerminal : Page := ⟨[str "T"], [str "body"], []⟩

/-- A concrete page whose next-link match satisfies neither prefix rule. -/
def examplePageInvalidNext : Page :=
  ⟨[str "T"], [str "body"], [str "javascript:void(0)"]⟩

/-- A filesystem already holding the output path this run would write for
title `T`. -/
def exampleFsCollision : FS := [(str "out/s/T.txt", str "old")]

/-! ### Helper lemmas -/

theorem foldl_append_flatten (l : List Str) (acc : Str) :
    List.foldl (fun a p => a ++ p ++ lineSep) acc l =
      acc ++ (l.map (fun node => node ++ lineSep)).flatten := by
  induction l generalizing acc with
  | nil => simp
  | cons p rest ih =>
    simp only [List.foldl_cons]
    rw [ih]
    simp [List.append_assoc]

theorem subWsNonWordGo_mem_word (l : Str) :
    ∀ (b : Bool) (c : Char), c ∈ subWsNonWordGo b l → isPyWordChar c = true := by
  induction l with
  | nil => intro b c h; simp [subWsNonWordGo] at h
  | cons x rest ih =>
    intro b c h
    simp only [subWsNonWordGo] at h
    split at h
    · split at h
      · exact ih true c h
      · rcases List.mem_cons.mp h with h1 | h1
        · subst h1; decide
        · exact ih true c h1
    · split at h
      · next hw =>
        rcases List.mem_cons.mp h with h1 | h1
        · subst h1; exact hw
        · exact ih false c h1
      · rcases List.mem_cons.mp h with h1 | h1
        · subst h1; decide
        · exact ih false c h1

theorem collapseGo_mem (l : Str) :
    ∀ (b : Bool) (c : Char), c ∈ collapseGo b l → c ∈ l := by
  induction l with
  | nil => intro b c h; simp [collapseGo] at h
  | cons x rest ih =>
    intro b c h
    simp only [collapseGo] at h
    split at h
    · next hx =>
      split at h
      · exact List.mem_cons_of_mem x (ih true c h)
      · rcases List.mem_cons.mp h with h1 | h1
        · subst h1
          have : x = '_' := by simpa using hx
          rw [← this]; exact List.mem_cons_self x rest
        · exact List.mem_cons_of_mem x (ih true c h1)
    · rcases List.mem_cons.mp h with h1 | h1
      · subst h1; exact List.mem_cons_self c rest
      · exact List.mem_cons_of_mem x (ih false c h1)

theorem isPyWordChar_not_space (c : Char) (h : isPyWordChar c = true) :
    isPySpace c = false := by
  cases hs : isPySpace c
  · rfl
  · exfalso
    have hc : c = ' ' ∨ c = '\t' ∨ c = '\n' ∨ c = '\r' ∨ c = '\x0b' ∨ c = '\x0c' := by
      simpa [isPySpace, or_assoc] using hs
    rcases hc with h1 | h1 | h1 | h1 | h1 | h1 <;> subst h1 <;>
      exact absurd h (by decide)

theorem collapseGo_true_head (l : Str) :
    ∀ (c : Char) (cs : Str), collapseGo true l = c :: cs → c ≠ '_' := by
  induction l with
  | nil => intro c cs h; simp [collapseGo] at h
  | cons x rest ih =>
    intro c cs h
    simp only [collapseGo] at h
    split at h
    · exact ih c cs h
    · next hx =>
      injection h with h1 _
      subst h1
      intro hc
      subst hc
      simp at hx

theorem noDoubleUnderscore_collapseGo (l : Str) :
    ∀ b : Bool, noDoubleUnderscore (collapseGo b l) = true := by
  induction l with
  | nil => intro b; simp [collapseGo, noDoubleUnderscore]
  | cons x rest ih =>
    intro b
    simp only [collapseGo]
    split
    · next hx =>
      cases b with
      | true => simpa using ih true
      | false =>
        simp only [if_neg Bool.false_ne_true]
        cases hrec : collapseGo true rest with
        | nil => simp [noDoubleUnderscore]
        | cons c cs =>
          have hc : c ≠ '_' := collapseGo_true_head rest c cs hrec
          have hrest : noDoubleUnderscore (c :: cs) = true := by
            rw [← hrec]; exact ih true
          simp [noDoubleUnderscore, hrest, hc]
    · next hx =>
      have hxe : x ≠ '_' := by simpa using hx
      cases hrec : collapseGo false rest with
      | nil => simp [noDoubleUnderscore]
      | cons c cs =>
        have hrest : noDoubleUnderscore (c :: cs) = true := by
          rw [← hrec]; exact ih false
        simp [noDoubleUnderscore, hrest, hxe]

theorem takeWhile_all_append {α : Type} (p : α → Bool) (l1 : List α) (c : α)
    (l2 : List α) (h1 : ∀ x ∈ l1, p x = true) (h2 : p c = false) :
    (l1 ++ c :: l2).takeWhile p = l1 := by
  induction l1 with
  | nil => simp [List.takeWhile_cons, h2]
  | cons y ys ih =>
    have hy : p y = true := h1 y (List.mem_cons_self y ys)
    simp [List.takeWhile_cons, hy,
      ih (fun x hx => h1 x (List.mem_cons_of_mem y hx))]

theorem delayDraw_none_of_lt_two (average_ms : Int) (h : average_ms < 2)
    (u : Nat) : delayDraw average_ms u = none := by
  have hf : average_ms.fdiv 2 = average_ms / 2 :=
    Int.fdiv_eq_ediv average_ms (by norm_num)
  simp only [delayDraw, randrangeDraw, hf]
  have hempty : ¬(average_ms - average_ms / 2 < average_ms + average_ms / 2) := by
    omega
  simp [hempty]

/-! ### Claim theorems -/

/-- C4: for every ordered sequence of content nodes, `normalize` is
exactly the four-step pipeline applied in order over the whole text:
concatenate each node's text with one platform line separator appended
after each node, replace the literal two-character escapes `\n` and `\r`
by real newline and carriage return, transliterate to ASCII, trim. -/
theorem normalize_four_step_order (contents : List Str) :
    normalize contents = specNormalize contents := by
  simp only [normalize, specNormalize, buildUtf8Content]
  rw [foldl_append_flatten]
  simp

/-- C3: heading reconciliation on the two concrete inputs of the spec:
with title `Chapter One` and first content line
`chapter one: the beginning...` the output is `## ` followed directly by
the normalized content with no separate title line; with title
`A New Dawn` and first content line `the sun rose slowly` the output is
`## A New Dawn`, one line separator, then the normalized content. -/
theorem heading_reconciliation_concrete :
    reconcileContent (str "Chapter One") (str "chapter one: the beginning...") [] =
      str "## " ++ str "chapter one: the beginning..." ∧
    normalize [str "chapter one: the beginning..."] =
      str "chapter one: the beginning..." ∧
    reconcileContent (str "A New Dawn") (str "the sun rose slowly") [] =
      str "## A New Dawn" ++ lineSep ++ str "the sun rose slowly" := by
  refine ⟨by decide, by decide, by decide⟩

/-- C5: next-link resolution on the concrete inputs of the spec: with
base URL `https://example.com/novel/` the raw value `/ch2` resolves to
the absolute URL `https://example.com/ch2`; the raw value
`javascript:void(0)` satisfies neither prefix rule and yields terminal,
and a crawl step on such a page finishes instead of continuing. -/
theorem link_resolution_concrete :
    resolveNext [str "/ch2"] (str "https://example.com/novel/") =
      .next (str "https://example.com/ch2") ∧
    resolveNext [str "javascript:void(0)"] (str "https://example.com/novel/") =
      .terminal ∧
    (step exampleConfig [] examplePageInvalidNext 0).1 = .ok .finished := by
  refine ⟨by decide, by decide, by decide⟩

/-- C2 counterexample: with title `Chapter One` and first (and only)
content node `chapter two` the heading condition holds, yet the final
content is `## chapter two` — the title is not part of the prefix, so the
final content is not the normalized content prefixed with `## ` plus the
title (with or without a separator line). -/
theorem heading_present_counterexample :
    reconcileContent (str "Chapter One") (str "chapter two") [] =
      str "## chapter two" ∧
    str "## chapter two" ≠
      str "## " ++ str "Chapter One" ++ normalize [str "chapter two"] ∧
    str "## chapter two" ≠
      str "## " ++ str "Chapter One" ++ lineSep ++ normalize [str "chapter two"] := by
  refine ⟨by decide, by decide, by decide⟩

/-- C2 (amended): for every page whose pre-normalization first content
line (lower-cased, trimmed) starts with the literal word `chapter` or has
the lower-cased title as a substring, the final content is the already
ASCII-normalized, trimmed content prefixed with `## ` alone — no title
text is inserted and the content is not otherwise altered. -/
theorem heading_present_prefix_only
    (title first : Str) (rest : List Str)
    (h : (strStartsWith (pyStrip (pyLower first)) (str "chapter") ||
      strContains (pyStrip (pyLower first)) (pyLower title)) = true) :
    reconcileContent title first rest = str "## " ++ normalize (first :: rest) := by
  have hdec : headingDecision title first = true := by
    simpa [headingDecision] using h
  simp [reconcileContent, hdec]

/-- C2 witness: the amended statement evaluated at the spec's own
example page. -/
theorem heading_present_prefix_only_witness :
    reconcileContent (str "Chapter One") (str "chapter one: the beginning...") [] =
      str "## " ++ normalize [str "chapter one: the beginning..."] :=
  heading_present_prefix_only (str "Chapter One")
    (str "chapter one: the beginning...") [] (by decide)

/-- C6: filename derivation is deterministic — equal titles yield equal
slugs — and for every title the resulting slug contains no two
consecutive underscores and no whitespace character. -/
theorem deriveFilename_deterministic_slug (t1 t2 : Str) :
    (t1 = t2 → deriveFilename t1 = deriveFilename t2) ∧
    noDoubleUnderscore (deriveFilename t1) = true ∧
    ∀ c ∈ deriveFilename t1, isPySpace c = false := by
  refine ⟨fun h => by rw [h], ?_, ?_⟩
  · simpa only [deriveFilename, collapseUnderscores] using
      noDoubleUnderscore_collapseGo (subWsNonWord (unidecodeStr t1)) false
  · intro c hc
    simp only [deriveFilename, collapseUnderscores] at hc
    have hmem := collapseGo_mem (subWsNonWord (unidecodeStr t1)) false c hc
    simp only [subWsNonWord] at hmem
    exact isPyWordChar_not_space c
      (subWsNonWordGo_mem_word (unidecodeStr t1) false c hmem)

/-- C6 witness: the slug invariants evaluated at a concrete title. -/
theorem deriveFilename_deterministic_slug_witness :
    noDoubleUnderscore (deriveFilename (str "My  Title!")) = true :=
  (deriveFilename_deterministic_slug (str "My  Title!") (str "My  Title!")).2.1

/-- C8: whenever `delay` returns normally, the drawn duration is an
integer number of milliseconds lying in the half-open interval
from `averageMs - floor(averageMs/2)` (inclusive) to
`averageMs + floor(averageMs/2)` (exclusive), and the draw is uniform:
each duration in that interval is produced by exactly one seed in the
canonical seed range. -/
theorem delayDraw_uniform_interval :
    ∀ (average_ms : Int) (u : Nat) (d : Int),
      delayDraw average_ms u = some d →
      (average_ms - average_ms.fdiv 2 ≤ d ∧ d < average_ms + average_ms.fdiv 2) ∧
      (∀ d' : Int, average_ms - average_ms.fdiv 2 ≤ d' →
        d' < average_ms + average_ms.fdiv 2 →
        ∃ u' : Nat, ((u' : Int) < 2 * average_ms.fdiv 2 ∧
            delayDraw average_ms u' = some d') ∧
          ∀ u'' : Nat, (u'' : Int) < 2 * average_ms.fdiv 2 →
            delayDraw average_ms u'' = some d' → u'' = u') := by
  intro avg u d h
  simp only [delayDraw, randrangeDraw] at h
  split at h
  case isFalse => simp at h
  case isTrue hlt =>
    have hd : avg - avg.fdiv 2 + (u : Int) % (avg + avg.fdiv 2 - (avg - avg.fdiv 2)) = d := by
      simpa using h
    have hn : (0 : Int) < avg + avg.fdiv 2 - (avg - avg.fdiv 2) := by omega
    have h0 := Int.emod_nonneg (u : Int) (ne_of_gt hn)
    have h1 := Int.emod_lt_of_pos (u : Int) hn
    constructor
    · omega
    · intro d' hlo hhi
      refine ⟨(d' - (avg - avg.fdiv 2)).toNat, ⟨?_, ?_⟩, ?_⟩
      · rw [Int.toNat_of_nonneg (by omega)]; omega
      · simp only [delayDraw, randrangeDraw, if_pos hlt]
        rw [Int.toNat_of_nonneg (by omega),
          Int.emod_eq_of_lt (by omega) (by omega)]
        have : avg - avg.fdiv 2 + (d' - (avg - avg.fdiv 2)) = d' := by omega
        rw [this]
      · intro u'' hlt'' heq''
        simp only [delayDraw, randrangeDraw, if_pos hlt] at heq''
        have h2 : avg - avg.fdiv 2 +
            (u'' : Int) % (avg + avg.fdiv 2 - (avg - avg.fdiv 2)) = d' := by
          simpa using heq''
        rw [Int.emod_eq_of_lt (by omega) (by omega)] at h2
        omega

/-- C8 witness: at an average of 10 ms, seed 0 draws 5 ms, which lies in
the claimed interval. -/
theorem delayDraw_uniform_interval_witness :
    (10 : Int) - (10 : Int).fdiv 2 ≤ 5 ∧ (5 : Int) < 10 + (10 : Int).fdiv 2 :=
  (delayDraw_uniform_interval 10 0 5 (by decide)).1

/-- C9: whenever the heading reconciler injects a synthesized title line,
the line that follows `## ` is the raw, non-transliterated title; in
particular, for the non-ASCII title `Café` the written content carries a
non-ASCII character in its first line while every character after the
first line separator is ASCII. -/
theorem raw_title_injected :
    (∀ (title first : Str) (rest : List Str),
      headingDecision title first = false →
      '\n' ∉ title →
      (reconcileContent title first rest).takeWhile (fun ch => ch != '\n') =
        str "## " ++ title) ∧
    (unidecodeStr (str "Café") ≠ str "Café" ∧
      'é' ∈ (reconcileContent (str "Café") (str "the sun rose slowly") []).takeWhile
          (fun ch => ch != '\n') ∧
      ∀ c ∈ (reconcileContent (str "Café") (str "the sun rose slowly") []).dropWhile
          (fun ch => ch != '\n'), c.val < 128) := by
  constructor
  · intro title first rest hdec hnl
    simp only [reconcileContent, hdec, Bool.false_eq_true, if_false]
    have hassoc : str "## " ++ title ++ lineSep ++ normalize (first :: rest) =
        (str "## " ++ title) ++ '\n' :: normalize (first :: rest) := by
      simp [lineSep, List.append_assoc]
    rw [hassoc]
    apply takeWhile_all_append
    · intro x hx
      rcases List.mem_append.mp hx with h1 | h1
      · have h3 : str "## " = ['#', '#', ' '] := rfl
        rw [h3] at h1
        have h4 : x = '#' ∨ x = '#' ∨ x = ' ' := by simpa using h1
        rcases h4 with h5 | h5 | h5 <;> subst h5 <;> decide
      · simp only [bne_iff_ne, ne_eq, decide_eq_true_eq]
        intro hx2
        subst hx2
        exact hnl h1
    · decide
  · refine ⟨by decide, by decide, by decide⟩

/-- C9 witness: the injected-title branch evaluated at a concrete page. -/
theorem raw_title_injected_witness :
    (reconcileContent (str "My Title") (str "the sun") []).takeWhile
        (fun ch => ch != '\n') = str "## " ++ str "My Title" :=
  raw_title_injected.1 (str "My Title") (str "the sun") [] (by decide) (by decide)

/-- C1: for every run in which the next-link query on the current page
yields zero matches, or yields a match that after trimming neither starts
with `/` nor starts with the configured base URL string, the crawl loop
stops as the normal, expected end-of-chain outcome — not as a failure
(the iteration's earlier stages being the ones that succeed: a title
match, a content match, and a free output path). -/
theorem terminal_next_link_normal_end
    (cfg : SiteConfig) (site : Str → Page) (rand : Nat → Nat)
    (fuel : Nat) (url : Str) (fs : FS) (i : Nat)
    (t c0 : Str) (ts cs : List Str)
    (htitle : (site url).titleMatches = t :: ts)
    (hcontent : (site url).contentMatches = c0 :: cs)
    (hfree : fsLookup fs (derivedPath cfg t) = none)
    (hnext : (site url).nextMatches = [] ∨
      ∃ m ms, (site url).nextMatches = m :: ms ∧
        strStartsWith (pyStrip m) (str "/") = false ∧
        strStartsWith (pyStrip m) cfg.baseurl = false) :
    ∃ fs', crawl cfg site rand (fuel + 1) url fs i = .normalEnd fs' := by
  have hterm : resolveNext (site url).nextMatches cfg.baseurl = .terminal := by
    rcases hnext with h | ⟨m, ms, hm, h1, h2⟩
    · rw [h]; rfl
    · rw [hm]; simp [resolveNext, h1, h2]
  have hstep : (step cfg fs (site url) (rand i)).1 = .ok .finished := by
    simp [step, htitle, hcontent, write_content, hfree, hterm]
  rcases hsp : step cfg fs (site url) (rand i) with ⟨r, fs2⟩
  rw [hsp] at hstep
  simp only at hstep
  subst hstep
  refine ⟨fs2, ?_⟩
  simp only [crawl]
  rw [hsp]

/-- C1 witness: a one-page chain with no next-link match terminates
normally. -/
theorem terminal_next_link_normal_end_witness :
    ∃ fs', crawl exampleConfig (fun _ => examplePageTerminal) (fun _ => 0) 1
      (str "start") [] 0 = .normalEnd fs' :=
  terminal_next_link_normal_end exampleConfig (fun _ => examplePageTerminal)
    (fun _ => 0) 0 (str "start") [] 0 (str "T") (str "body") [] []
    rfl rfl (by decide) (Or.inl rfl)

/-- C7: if the per-chapter output path already exists when the loop
attempts to write it, the iteration aborts with the fatal collision
error naming that path, the filesystem — in particular the pre-existing
file's contents — is left unchanged, and the page is not
skipped-and-continued. -/
theorem output_collision_aborts
    (cfg : SiteConfig) (fs : FS) (page : Page) (u : Nat)
    (t old : Str) (ts : List Str)
    (htitle : page.titleMatches = t :: ts)
    (hcontent : page.contentMatches ≠ [])
    (hexists : fsLookup fs (derivedPath cfg t) = some old) :
    (step cfg fs page u).1 = .error (.outputCollision (derivedPath cfg t)) ∧
    (step cfg fs page u).2 = fs ∧
    fsLookup (step cfg fs page u).2 (derivedPath cfg t) = some old ∧
    ∀ nextUrl, (step cfg fs page u).1 ≠ .ok (.continued nextUrl) := by
  rcases hc : page.contentMatches with _ | ⟨c0, cs⟩
  · exact absurd hc hcontent
  have hstep : step cfg fs page u =
      (.error (.outputCollision (derivedPath cfg t)), fs) := by
    simp [step, htitle, hc, write_content, hexists]
  refine ⟨by rw [hstep], by rw [hstep], ?_, ?_⟩
  · rw [hstep]; exact hexists
  · intro nextUrl hcon
    rw [hstep] at hcon
    exact Except.noConfusion hcon

/-- C7 witness: the collision behavior evaluated at a concrete run whose
output path is already on disk. -/
theorem output_collision_aborts_witness :
    (step exampleConfig exampleFsCollision examplePageTerminal 0).1 =
      .error (.outputCollision (derivedPath exampleConfig (str "T"))) :=
  (output_collision_aborts exampleConfig exampleFsCollision examplePageTerminal 0
    (str "T") (str "old") [] rfl (by decide) (by decide)).1

/-- C10: for every average strictly below 2 the randomization range of
`delay` is empty and the draw fails (the `ValueError` of
`random.randrange`); as a consequence a configured average delay of 0 or
1 ms makes the first continuing iteration abort at the delay stage
instead of sleeping. -/
theorem delay_below_two_crashes :
    (∀ average_ms : Int, average_ms < 2 → ∀ u : Nat,
      delayDraw average_ms u = none) ∧
    (∀ (cfg : SiteConfig) (fs : FS) (page : Page) (u : Nat) (t c0 m : Str)
        (ts cs ms : List Str),
      cfg.delayMs < 2 →
      page.titleMatches = t :: ts →
      page.contentMatches = c0 :: cs →
      page.nextMatches = m :: ms →
      (strStartsWith (pyStrip m) (str "/") ||
        strStartsWith (pyStrip m) cfg.baseurl) = true →
      fsLookup fs (derivedPath cfg t) = none →
      (step cfg fs page u).1 = .error .delayEmptyRange) := by
  constructor
  · exact fun avg h u => delayDraw_none_of_lt_two avg h u
  · intro cfg fs page u t c0 m ts cs ms hd htitle hcontent hnext hvalid hfree
    have hres : resolveNext page.nextMatches cfg.baseurl =
        .next (urljoin cfg.baseurl (pyStrip m)) := by
      rw [hnext]; simp [resolveNext, hvalid]
    simp [step, htitle, hcontent, write_content, hfree, hres,
      delayDraw_none_of_lt_two cfg.delayMs hd u]

/-- C10 witness: an average of 1 ms yields an empty range and no draw. -/
theorem delay_below_two_crashes_witness : delayDraw 1 0 = none :=
  delay_below_two_crashes.1 1 (by decide) 0

end NovelCrawler
